import Mathlib

set_option maxRecDepth 100000

/-!
Verification development for the calculator repository (engine.cpp, engine.h,
calc.cpp). The lexer, parser and evaluator of `engine.cpp` are shallowly
embedded below; the CLI error rendering of `calc.cpp` is embedded afterwards.

Modelling conventions:
* C++ `double` values are modelled by `dbl`, an exact rational kept in
  normalized form (no gcd from the library: kernel-reducible fuel gcd).
  Rounding of IEEE doubles is not modelled; every arithmetic result appearing
  in the verified statements is exactly representable, so the model agrees
  with the C++ program on them.  Infinities and NaN are modelled by the
  wrapper type `Val`, with the IEEE special-value rules (sign of zero is not
  tracked).
* C++ exceptions become `Except calc_error`; `parse_exception(pos, msg)`
  becomes `calc_error.parse_error pos msg`, and the internal
  `broken_parser_exception` (unreachable assertions) becomes
  `calc_error.broken`.
* The recursive-descent parser of `engine.cpp` terminates by a fuel
  argument; running out of fuel yields `calc_error.broken "out of fuel"`,
  which never happens for the inputs considered (all concrete evaluations
  below succeed with the fuel supplied by `parse`).
* `std::strtod` on a buffer made of digits and dots is modelled by
  `strtod_len` (characters consumed) and `strtod_val` (exact decimal value);
  `std::isnormal` of the resulting double is modelled by `isnormal_model`,
  which checks the exact value against the smallest positive normal double
  and the largest finite double.
-/

/-- Fuel-driven Euclidean gcd, structurally recursive so the kernel reduces it. -/
def gcdF : Nat → Nat → Nat → Nat
  | 0, _, b => b
  | f+1, a, b => if a = 0 then b else gcdF f (b % a) a

/-- Gcd with enough fuel (`a+1` steps always suffice since the first argument
strictly decreases). -/
def dgcd (a b : Nat) : Nat := gcdF (a + 1) a b

/-- Exact-value model of a C++ `double`: a fraction kept normalized
(positive denominator, coprime) by the smart constructor `dbl.mk'`. -/
structure dbl where
  num : Int
  den : Nat
deriving DecidableEq, Repr

/-- Normalizing constructor: reduce `n / d` (callers keep `d ≠ 0`). -/
def dbl.mk' (n : Int) (d : Nat) : dbl :=
  let g := dgcd n.natAbs d
  if g = 0 then ⟨0, 1⟩ else ⟨n / (g : Int), d / g⟩

def dbl.ofNat (n : Nat) : dbl := ⟨(n : Int), 1⟩

def dbl.add (x y : dbl) : dbl := dbl.mk' (x.num * y.den + y.num * x.den) (x.den * y.den)

def dbl.sub (x y : dbl) : dbl := dbl.mk' (x.num * y.den - y.num * x.den) (x.den * y.den)

def dbl.mul (x y : dbl) : dbl := dbl.mk' (x.num * y.num) (x.den * y.den)

/-- Division; callers guard the divisor against zero. -/
def dbl.div (x y : dbl) : dbl :=
  if y.num < 0 then dbl.mk' (-(x.num * y.den)) (x.den * y.num.natAbs)
  else dbl.mk' (x.num * y.den) (x.den * y.num.natAbs)

def dbl.isZero (x : dbl) : Bool := x.num = 0

def dbl.isNeg (x : dbl) : Bool := x.num < 0

def dbl.neg (x : dbl) : dbl := ⟨-x.num, x.den⟩

/-- Power by iterated multiplication, structurally recursive so that large
exponents reduce in the kernel (plain `Nat.pow` literals above `2^256` are
not evaluated by the elaborator). -/
def powN (b : Nat) : Nat → Nat
  | 0 => 1
  | n+1 => b * powN b n

/-- Numerator of the largest finite double, `(2^53 - 1) * 2^971`
(denominator 1). -/
def maxFiniteNum : Nat := (powN 2 53 - 1) * powN 2 971

/-- Model of `std::isnormal` applied to the double nearest the exact value
`x`: `2^-1022 ≤ |x| ≤ maxFinite`.  Exact at every value appearing in the
statements below (none is within rounding distance of the two thresholds). -/
def isnormal_model (x : dbl) : Bool :=
  x.den ≤ x.num.natAbs * powN 2 1022 && x.num.natAbs ≤ x.den * maxFiniteNum

/-- IEEE-style value of an evaluation: finite (exact rational), signed
infinity (`true` = negative), or NaN.  Sign of zero is not tracked. -/
inductive Val where
  | fin (q : dbl)
  | inf (neg : Bool)
  | nan
deriving DecidableEq, Repr

def Val.add : Val → Val → Val
  | .fin a, .fin b => .fin (a.add b)
  | .nan, _ => .nan
  | _, .nan => .nan
  | .inf s, .inf t => if s = t then .inf s else .nan
  | .inf s, .fin _ => .inf s
  | .fin _, .inf s => .inf s

def Val.sub : Val → Val → Val
  | .fin a, .fin b => .fin (a.sub b)
  | .nan, _ => .nan
  | _, .nan => .nan
  | .inf s, .inf t => if s = t then .nan else .inf s
  | .inf s, .fin _ => .inf s
  | .fin _, .inf s => .inf (!s)

def Val.mul : Val → Val → Val
  | .fin a, .fin b => .fin (a.mul b)
  | .nan, _ => .nan
  | _, .nan => .nan
  | .inf s, .inf t => .inf (xor s t)
  | .inf s, .fin b => if b.isZero then .nan else .inf (xor s b.isNeg)
  | .fin a, .inf s => if a.isZero then .nan else .inf (xor a.isNeg s)

def Val.div : Val → Val → Val
  | .fin a, .fin b =>
      if b.isZero then (if a.isZero then .nan else .inf a.isNeg)
      else .fin (a.div b)
  | .nan, _ => .nan
  | _, .nan => .nan
  | .inf s, .fin b => .inf (xor s b.isNeg)
  | .fin _, .inf _ => .fin ⟨0, 1⟩
  | .inf _, .inf _ => .nan

def Val.neg : Val → Val
  | .fin a => .fin a.neg
  | .inf s => .inf (!s)
  | .nan => .nan

/-- Token kinds, as in `enum class token_type` of engine.cpp. -/
inductive token_type where
  | number
  | opening_parenthesis
  | closing_parenthesis
  | multiply
  | divide
  | plus
  | minus
deriving DecidableEq, Repr

/-- Binary operators, as in `enum class _operator` of engine.cpp. -/
inductive _operator where
  | multiply
  | divide
  | plus
  | minus
deriving DecidableEq, Repr

/-- Precedence levels, as in `enum class priority` of engine.cpp
(`lowest < first < second` in declaration order). -/
inductive priority where
  | lowest
  | first
  | second
deriving DecidableEq, Repr

/-- Underlying integer of a `priority`, used for the C++ `<=` comparison on
the enum. -/
def priority.toNat : priority → Nat
  | .lowest => 0
  | .first => 1
  | .second => 2

/-- Model of `class token`: kind, zero-based character offset, and the
numeric value (meaningful only for `number` tokens, `0` otherwise as in the
C++ default constructor argument). -/
structure token where
  type : token_type
  start_position : Nat
  value : dbl := ⟨0, 1⟩
deriving DecidableEq, Repr

/-- Placeholder token for out-of-range vector accesses (never read on the
paths reachable from `parse`, mirroring the C++ in-bounds invariant). -/
def default_token : token := ⟨token_type.number, 0, ⟨0, 1⟩⟩

/-- Expression-tree nodes: the closed set of `expression` subclasses of
engine.cpp (`number`, `add`, `subtract`, `multiply`, `divide`,
`parentheses`, `negative`). -/
inductive expression where
  | number (value : dbl)
  | add (left right : expression)
  | subtract (left right : expression)
  | multiply (left right : expression)
  | divide (left right : expression)
  | parentheses (content : expression)
  | negative (content : expression)
deriving DecidableEq, Repr

/-- Model of the `consumed_tokens` virtual method of each node class. -/
def expression.consumed_tokens : expression → Nat
  | .number _ => 1
  | .add l r => l.consumed_tokens + r.consumed_tokens + 1
  | .subtract l r => l.consumed_tokens + r.consumed_tokens + 1
  | .multiply l r => l.consumed_tokens + r.consumed_tokens + 1
  | .divide l r => l.consumed_tokens + r.consumed_tokens + 1
  | .parentheses c => c.consumed_tokens + 2
  | .negative c => c.consumed_tokens + 1

/-- Model of the `calc` virtual method of each node class (`negative::calc`
multiplies by `-1`, as in the source). -/
def expression.calcE : expression → Val
  | .number v => .fin v
  | .add l r => Val.add l.calcE r.calcE
  | .subtract l r => Val.sub l.calcE r.calcE
  | .multiply l r => Val.mul l.calcE r.calcE
  | .divide l r => Val.div l.calcE r.calcE
  | .parentheses c => c.calcE
  | .negative c => Val.mul (Val.fin ⟨-1, 1⟩) c.calcE

/-- Errors: `parse_error` models `parse_exception{start_position, message}`
of engine.h; `broken` models the internal `broken_parser_exception`
(assertion paths that are unreachable from `parse`), and is also used when
the termination fuel runs out. -/
inductive calc_error where
  | parse_error (start_position : Nat) (message : String)
  | broken (message : String)
deriving DecidableEq, Repr

instance {ε α : Type} [DecidableEq ε] [DecidableEq α] : DecidableEq (Except ε α) := fun x y =>
  match x, y with
  | .ok a, .ok b =>
      if h : a = b then isTrue (by rw [h])
      else isFalse (by intro hc; cases hc; exact h rfl)
  | .ok _, .error _ => isFalse (by intro hc; cases hc)
  | .error _, .ok _ => isFalse (by intro hc; cases hc)
  | .error a, .error b =>
      if h : a = b then isTrue (by rw [h])
      else isFalse (by intro hc; cases hc; exact h rfl)

/-- Character class test of the tokenizer:
`symbol >= '0' && symbol <= '9' || symbol == '.'`. -/
def isNumChar (c : Char) : Bool := ('0' ≤ c && c ≤ '9') || c = '.'

def isDigitChar (c : Char) : Bool := '0' ≤ c && c ≤ '9'

/-- Number of leading decimal digits of a character list. -/
def leadingDigits : List Char → Nat
  | [] => 0
  | c :: rest => if isDigitChar c then leadingDigits rest + 1 else 0

/-- Model of the number of characters `std::strtod` consumes from a buffer
made of digits and dots: the longest prefix of the form
`digits [ '.' digits ]` containing at least one digit, zero when no
conversion is performed. -/
def strtod_len (s : List Char) : Nat :=
  let d1 := leadingDigits s
  match s.drop d1 with
  | '.' :: r2 =>
      let d2 := leadingDigits r2
      if d1 + d2 = 0 then 0 else d1 + 1 + d2
  | _ => d1

def digitVal (c : Char) : Nat := c.toNat - '0'.toNat

def digitsToNat (s : List Char) : Nat :=
  s.foldl (fun acc c => acc * 10 + digitVal c) 0

/-- Exact decimal value of the prefix `std::strtod` consumes. -/
def strtod_val (s : List Char) : dbl :=
  let d1 := leadingDigits s
  let ip := digitsToNat (s.take d1)
  match s.drop d1 with
  | '.' :: r2 =>
      let d2 := leadingDigits r2
      let fp := digitsToNat (r2.take d2)
      dbl.mk' ((ip * powN 10 d2 + fp : Nat) : Int) (powN 10 d2)
  | _ => dbl.mk' (ip : Int) 1

/-- Model of `parser::parse_number`: the `strtod` conversion must consume the
whole buffer and the value must satisfy `isnormal`, otherwise
`parse_exception(number_start, "Number too long")` is thrown.  (The
`catch (std::logic_error)` branch of the source is dead code: `strtod` does
not throw.) -/
def parse_number (number : List Char) (number_start : Nat) : Except calc_error dbl :=
  let value := strtod_val number
  if strtod_len number = number.length && isnormal_model value then .ok value
  else .error (.parse_error number_start "Number too long")

/-- One step of `parser::tokenize`'s scan loop: remaining characters, current
index `i`, accumulated tokens, pending numeric buffer, buffer start offset. -/
def tokenize_go : List Char → Nat → List token → List Char → Nat →
    Except calc_error (List token)
  | [], _, acc, _, _ => .ok acc
  | c :: rest, i, acc, buf, ns =>
    if isNumChar c then
      let ns' := if buf.isEmpty then i else ns
      let buf' := buf ++ [c]
      if rest.isEmpty then
        match parse_number buf' ns' with
        | .error e => .error e
        | .ok v => .ok (acc ++ [⟨token_type.number, ns', v⟩])
      else tokenize_go rest (i + 1) acc buf' ns'
    else
      match (if buf.isEmpty then .ok acc
             else (parse_number buf ns).map
               (fun v => acc ++ [⟨token_type.number, ns, v⟩]) :
             Except calc_error (List token)) with
      | .error e => .error e
      | .ok acc2 =>
        if c = ' ' then tokenize_go rest (i + 1) acc2 [] ns
        else if c = '(' then
          tokenize_go rest (i + 1) (acc2 ++ [⟨token_type.opening_parenthesis, i, ⟨0, 1⟩⟩]) [] ns
        else if c = ')' then
          tokenize_go rest (i + 1) (acc2 ++ [⟨token_type.closing_parenthesis, i, ⟨0, 1⟩⟩]) [] ns
        else if c = '+' then
          tokenize_go rest (i + 1) (acc2 ++ [⟨token_type.plus, i, ⟨0, 1⟩⟩]) [] ns
        else if c = '-' then
          tokenize_go rest (i + 1) (acc2 ++ [⟨token_type.minus, i, ⟨0, 1⟩⟩]) [] ns
        else if c = '*' then
          tokenize_go rest (i + 1) (acc2 ++ [⟨token_type.multiply, i, ⟨0, 1⟩⟩]) [] ns
        else if c = '/' then
          tokenize_go rest (i + 1) (acc2 ++ [⟨token_type.divide, i, ⟨0, 1⟩⟩]) [] ns
        else .error (.parse_error i "Unexpected symbol")

/-- Model of `parser::tokenize` on the formula string. -/
def tokenize (formula : String) : Except calc_error (List token) :=
  tokenize_go formula.data 0 [] [] 0

/-- Model of `parser::parse_operator`. -/
def parse_operator (t : token) : Except calc_error _operator :=
  match t.type with
  | .plus => .ok _operator.plus
  | .minus => .ok _operator.minus
  | .multiply => .ok _operator.multiply
  | .divide => .ok _operator.divide
  | _ => .error (.parse_error t.start_position "Unexpected token: operator needed")

/-- Model of `parser::get_priority`. -/
def get_priority : _operator → priority
  | .minus => priority.first
  | .plus => priority.first
  | .multiply => priority.second
  | .divide => priority.second

/-- Model of `parser::create_two_operand_expression`. -/
def create_two_operand_expression (left : expression) (o : _operator) (right : expression) :
    expression :=
  match o with
  | .multiply => .multiply left right
  | .divide => .divide left right
  | .plus => .add left right
  | .minus => .subtract left right

/-- Inner loop of `parser::find_closing_parenthesis`, scanning indices
`i, i+1, ...` for `steps` steps with the current nesting `depth`.  The C++
`depth < 0` assertion path cannot occur (depth is only decreased when
positive), so `depth` is a `Nat` here. -/
def fcp_go (tokens : List token) : Nat → Nat → Nat → Option Nat
  | _, 0, _ => none
  | i, steps+1, depth =>
    let t := tokens.getD i default_token
    if t.type = token_type.closing_parenthesis then
      if depth = 0 then some i else fcp_go tokens (i + 1) steps (depth - 1)
    else if t.type = token_type.opening_parenthesis then
      fcp_go tokens (i + 1) steps (depth + 1)
    else fcp_go tokens (i + 1) steps depth

/-- Model of `parser::find_closing_parenthesis` over the inclusive index
range; `none` models the C++ return value `-1`. -/
def find_closing_parenthesis (tokens : List token) (start end_ : Nat) : Option Nat :=
  fcp_go tokens start (end_ + 1 - start) 0

/-- Call descriptor for the mutually recursive parsing procedures of the C++
`parser` class: `range`/`operand`/`parens` name `parse_range`,
`parse_operand` and `parse_parentheses`; `rloop` is the state of the
`while (available_tokens > consumed_tokens)` loop inside `parse_range`
(its state is the expression built so far: the C++ local `consumed_tokens`
always equals `result->consumed_tokens()` at the loop head). -/
inductive pcall where
  | range (start end_ : Nat) (parent_priority : priority)
  | rloop (start end_ : Nat) (parent_priority : priority) (result : expression)
  | operand (start end_ : Nat)
  | parens (start end_ : Nat)

/-- The four parsing procedures as one function, structurally recursive on a
fuel argument so the kernel can unfold it (each transition between the C++
procedures spends one unit of fuel).  C++ indexes the token vector with
unchecked `operator[]`; an out-of-range index is undefined behavior there
and is modelled here by the internal (uncatchable) error kind, so that an
`ok` result always corresponds to a well-defined C++ execution. -/
def runP (tokens : List token) : Nat → pcall → Except calc_error expression
  | 0, _ => .error (.broken "out of fuel")
  | f+1, .range start end_ parent_priority =>
    (match runP tokens f (.operand start end_) with
     | .error e => .error e
     | .ok result => runP tokens f (.rloop start end_ parent_priority result))
  | f+1, .rloop start end_ parent_priority result =>
    let available_tokens := end_ + 1 - start
    let consumed := result.consumed_tokens
    if available_tokens > consumed then
      match tokens[start + consumed]? with
      | none => .error (.broken "token index out of range")
      | some next_token =>
      match parse_operator next_token with
      | .error e => .error e
      | .ok next_operator =>
        let operator_priority := get_priority next_operator
        if operator_priority.toNat ≤ parent_priority.toNat then .ok result
        else
          match runP tokens f (.range (start + consumed + 1) end_ operator_priority) with
          | .error e => .error e
          | .ok next_operand =>
            runP tokens f (.rloop start end_ parent_priority
              (create_two_operand_expression result next_operator next_operand))
    else .ok result
  | f+1, .operand start end_ =>
    match tokens[start]? with
    | none => .error (.broken "token index out of range")
    | some first_token =>
    (match first_token.type with
     | .opening_parenthesis => runP tokens f (.parens start end_)
     | .minus =>
        if start = end_ then
          .error (.parse_error first_token.start_position "Orphan minus")
        else
          match runP tokens f (.operand (start + 1) end_) with
          | .error e => .error e
          | .ok content => .ok (expression.negative content)
     | .number => .ok (expression.number first_token.value)
     | _ => .error (.parse_error first_token.start_position "Unexpected token"))
  | f+1, .parens start end_ =>
    (match find_closing_parenthesis tokens (start + 1) end_ with
     | none =>
        match tokens[start]? with
        | none => .error (.broken "token index out of range")
        | some opening_token =>
          .error (.parse_error opening_token.start_position "Unclosed parenthesis")
     | some closing_parenthesis_index =>
       if closing_parenthesis_index = start + 1 then
         match tokens[start]? with
         | none => .error (.broken "token index out of range")
         | some opening_token =>
           .error (.parse_error opening_token.start_position "Empty parentheses")
       else
         match runP tokens f (.range (start + 1) (closing_parenthesis_index - 1)
             priority.lowest) with
         | .error e => .error e
         | .ok content => .ok (expression.parentheses content))

/-- Model of `parser::parse_range`. -/
def parse_range (fuel : Nat) (tokens : List token) (start end_ : Nat)
    (parent_priority : priority) : Except calc_error expression :=
  runP tokens fuel (.range start end_ parent_priority)

/-- The `while` loop of `parser::parse_range`. -/
def parse_range_loop (fuel : Nat) (tokens : List token) (start end_ : Nat)
    (parent_priority : priority) (result : expression) : Except calc_error expression :=
  runP tokens fuel (.rloop start end_ parent_priority result)

/-- Model of `parser::parse_operand`. -/
def parse_operand (fuel : Nat) (tokens : List token) (start end_ : Nat) :
    Except calc_error expression :=
  runP tokens fuel (.operand start end_)

/-- Model of `parser::parse_parentheses`. -/
def parse_parentheses (fuel : Nat) (tokens : List token) (start end_ : Nat) :
    Except calc_error expression :=
  runP tokens fuel (.parens start end_)

/-- Fuel that amply covers the recursion depth of the parser on its token
list (every reachable concrete evaluation below confirms sufficiency). -/
def parser_fuel (tokens : List token) : Nat := 6 * tokens.length + 12

/-- Model of `parser::parse`. -/
def parse (tokens : List token) : Except calc_error expression :=
  if tokens.isEmpty then .error (.parse_error 0 "Empty input")
  else parse_range (parser_fuel tokens) tokens 0 (tokens.length - 1) priority.lowest

/-- Model of the `calculate` entry point of engine.cpp. -/
def calculate (formula : String) : Except calc_error Val :=
  match tokenize formula with
  | .error e => .error e
  | .ok tokens =>
    match parse tokens with
    | .error e => .error e
    | .ok e => .ok e.calcE

/-- Error rendering of `main` in calc.cpp (the `catch (parse_exception)`
block): the four lines written to `std::cerr`. -/
def cli_catch_lines (formula : String) (e_pos : Nat) (e_msg : String) : List String :=
  ["Invalid input:",
   "\"" ++ formula ++ "\"",
   String.mk (List.replicate (e_pos + 1) ' ') ++ "^",
   e_msg]

/-- Standard-error output of `main` in calc.cpp for one input line: `none`
when `calculate` succeeds (or on the unreachable internal-error kind, which
`main` does not catch), the caught-and-rendered lines otherwise. -/
def cli_stderr (input : String) : Option (List String) :=
  match calculate input with
  | .ok _ => none
  | .error (.parse_error p m) => some (cli_catch_lines input p m)
  | .error (.broken _) => none

/-- Exit status of `main` in calc.cpp: `EXIT_SUCCESS = 0` on success,
`EXIT_FAILURE = 1` on a caught `parse_exception`, `none` for the
uncaught internal-error kind (abnormal termination). -/
def cli_exit_status (input : String) : Option Nat :=
  match calculate input with
  | .ok _ => some 0
  | .error (.parse_error _ _) => some 1
  | .error (.broken _) => none

/-- Token kind of a binary operator, for building token lists directly. -/
def opTokenType : _operator → token_type
  | .multiply => token_type.multiply
  | .divide => token_type.divide
  | .plus => token_type.plus
  | .minus => token_type.minus

/-- A token range is properly delimited when the position just past its end
is either past the whole token list (as at the top-level call) or holds a
closing parenthesis (as for the inner range of a parenthesized group).
Every range the C++ parser works on has this shape. -/
def range_closed (tokens : List token) (e : Nat) : Prop :=
  ∀ t, tokens[e + 1]? = some t → t.type = token_type.closing_parenthesis

/-- Token list of a flat chain: one numeric token followed by the
operator/number token pairs of the chain (offsets immaterial to parsing
success, set to 0). -/
def opsTokens : List (_operator × dbl) → List token
  | [] => []
  | (o, w) :: rest =>
      ⟨opTokenType o, 0, ⟨0, 1⟩⟩ :: ⟨token_type.number, 0, w⟩ :: opsTokens rest

/-- Token list for the input "v o1 w1 o2 w2 ...": numeric literals joined by
binary operators, with no parentheses and no unary minus. -/
def flat_tokens (v : dbl) (ops : List (_operator × dbl)) : List token :=
  ⟨token_type.number, 0, v⟩ :: opsTokens ops

/-- Position `i` holds a numeric token of value `v`. -/
def num_at (tokens : List token) (i : Nat) (v : dbl) : Prop :=
  ∃ t, tokens[i]? = some t ∧ t.type = token_type.number ∧ t.value = v

/-- Position `i` holds a token that `parse_operator` reads as `o`. -/
def op_at (tokens : List token) (i : Nat) (o : _operator) : Prop :=
  ∃ t, tokens[i]? = some t ∧ parse_operator t = .ok o

/-- From position `pos` on, the tokens continue a flat chain with the given
operator/value pairs, ending exactly at position `e` (so `pos = e + 1` once
the chain is exhausted). -/
def tail_at (tokens : List token) : Nat → List (_operator × dbl) → Nat → Prop
  | pos, [], e => pos = e + 1
  | pos, (o, w) :: rest, e =>
      op_at tokens pos o ∧ num_at tokens (pos + 1) w ∧ tail_at tokens (pos + 2) rest e

/-- Reference fold, following the specification's precedence description:
fold the leading run of * and / operators left-associatively into the
current term, stopping at the first + or -. -/
def mulFold (acc : expression) : List (_operator × dbl) → expression
  | [] => acc
  | (o, w) :: rest =>
      if get_priority o = priority.second then
        mulFold (create_two_operand_expression acc o (.number w)) rest
      else acc

/-- Number of operators taken by `mulFold`. -/
def mulTaken : List (_operator × dbl) → Nat
  | [] => 0
  | (o, _) :: rest => if get_priority o = priority.second then mulTaken rest + 1 else 0

/-- Suffix left after `mulFold`. -/
def mulRest : List (_operator × dbl) → List (_operator × dbl)
  | [] => []
  | (o, w) :: rest =>
      if get_priority o = priority.second then mulRest rest else (o, w) :: rest

/-- Reference fold, following the specification's precedence description:
the first index is a structural-recursion bound (the chain length always
suffices).  A * or / operator binds its operand immediately into the
current term (left-associatively); a + or - operator takes the entire
following multiplicative term as its right operand and folds
left-associatively into the running expression. -/
def addFoldF : Nat → expression → List (_operator × dbl) → expression
  | 0, acc, _ => acc
  | _+1, acc, [] => acc
  | n+1, acc, (o, w) :: rest =>
      if get_priority o = priority.second then
        addFoldF n (create_two_operand_expression acc o (.number w)) rest
      else
        addFoldF n
          (create_two_operand_expression acc o (mulFold (.number w) rest))
          (mulRest rest)

/-- The standard-precedence, left-associative expression tree of a flat
chain, written from the specification's description of precedence climbing
(to be compared with what the parser of the source actually builds). -/
def spec_flat_tree (v : dbl) (ops : List (_operator × dbl)) : expression :=
  addFoldF ops.length (.number v) ops

theorem powN_eq_pow (b n : Nat) : powN b n = b ^ n := by
  induction n with
  | zero => rfl
  | succ n ih => simp [powN, ih, pow_succ]; ring

/-- Claim C4: tokenizing the empty string yields an empty token sequence
without error; parsing the empty token sequence fails with a ParseError at
offset 0, message "Empty input"; hence calculate("") fails at offset 0 with
"Empty input". -/
theorem claim_C4 :
    tokenize "" = .ok []
    ∧ parse [] = .error (.parse_error 0 "Empty input")
    ∧ calculate "" = .error (.parse_error 0 "Empty input") :=
  ⟨rfl, rfl, rfl⟩

theorem tokenize_go_spaces (l : List Char) : ∀ i acc ns, (∀ c ∈ l, c = ' ') →
    tokenize_go l i acc [] ns = .ok acc := by
  induction l with
  | nil => intro i acc ns _; rfl
  | cons c rest ih =>
      intro i acc ns h
      have hc : c = ' ' := h c (List.mem_cons_self c rest)
      subst hc
      simp only [tokenize_go]
      norm_num [isNumChar]
      exact ih (i + 1) acc ns (fun c hc => h c (List.mem_cons_of_mem _ hc))

/-- Claim C9: an input consisting only of space characters tokenizes to the
empty token sequence, so calculate fails at offset 0 with "Empty input"
even though the input is non-empty. -/
theorem claim_C9 (s : String) (h : ∀ c ∈ s.data, c = ' ') :
    tokenize s = .ok [] ∧ calculate s = .error (.parse_error 0 "Empty input") := by
  have ht : tokenize s = .ok [] := tokenize_go_spaces s.data 0 [] 0 h
  refine ⟨ht, ?_⟩
  simp [calculate, ht, parse]

theorem claim_C9_witness :
    tokenize " " = .ok []
    ∧ calculate " " = .error (.parse_error 0 "Empty input") :=
  claim_C9 " " (by decide)

/-- Claim C7: for a range starting with a minus token, a minus that is the
last token of the range fails with "Orphan minus" at the minus token's
offset, otherwise the operand at the next position is parsed recursively
and wrapped in one Negate node; chains parse as nested negations and
calculate("-5") = -5. -/
theorem claim_C7 :
    (∀ (fuel : Nat) (tokens : List token) (start end_ : Nat) (t : token),
      tokens[start]? = some t → t.type = token_type.minus →
      (start = end_ →
        parse_operand (fuel + 1) tokens start end_ =
          .error (.parse_error t.start_position "Orphan minus"))
      ∧ (start ≠ end_ →
        parse_operand (fuel + 1) tokens start end_ =
          match parse_operand fuel tokens (start + 1) end_ with
          | .error e => .error e
          | .ok content => .ok (expression.negative content)))
    ∧ parse [⟨token_type.minus, 0, ⟨0, 1⟩⟩, ⟨token_type.minus, 1, ⟨0, 1⟩⟩,
             ⟨token_type.number, 2, ⟨5, 1⟩⟩] =
        .ok (expression.negative (expression.negative (expression.number ⟨5, 1⟩)))
    ∧ calculate "-5" = .ok (Val.fin ⟨-5, 1⟩)
    ∧ calculate "--5" = .ok (Val.fin ⟨5, 1⟩) := by
  refine ⟨?_, by decide, by decide, by decide⟩
  intro fuel tokens start end_ t hsome h
  constructor
  · intro he
    subst he
    simp only [parse_operand, runP, hsome]
    rw [h]
    simp
  · intro hne
    simp only [parse_operand, runP, hsome]
    rw [h]
    simp [hne]

theorem claim_C7_witness :
    parse_operand 1 [⟨token_type.minus, 0, ⟨0, 1⟩⟩] 0 0 =
      .error (.parse_error 0 "Orphan minus")
    ∧ parse_operand 2 [⟨token_type.minus, 0, ⟨0, 1⟩⟩,
        ⟨token_type.number, 1, ⟨5, 1⟩⟩] 0 1 =
      .ok (expression.negative (expression.number ⟨5, 1⟩)) := by
  constructor
  · exact (claim_C7.1 0 [⟨token_type.minus, 0, ⟨0, 1⟩⟩] 0 0
      ⟨token_type.minus, 0, ⟨0, 1⟩⟩ (by decide) (by decide)).1 rfl
  · exact ((claim_C7.1 1 [⟨token_type.minus, 0, ⟨0, 1⟩⟩, ⟨token_type.number, 1, ⟨5, 1⟩⟩] 0 1
      ⟨token_type.minus, 0, ⟨0, 1⟩⟩ (by decide) (by decide)).2 (by decide)).trans (by decide)

/-- Claim C6: for a token range beginning with an opening parenthesis, no
matching closing parenthesis (by the parser's depth-counting search) fails
with "Unclosed parenthesis" at the opening token's offset; an immediately
adjacent closing parenthesis fails with "Empty parentheses" at the opening
token's offset; otherwise the enclosed range is parsed at lowest priority
and the Parenthesized node evaluates to exactly its inner value. -/
theorem claim_C6 :
    (∀ (fuel : Nat) (tokens : List token) (start end_ : Nat) (t : token),
      tokens[start]? = some t → t.type = token_type.opening_parenthesis →
      (find_closing_parenthesis tokens (start + 1) end_ = none →
        parse_parentheses (fuel + 1) tokens start end_ =
          .error (.parse_error t.start_position "Unclosed parenthesis"))
      ∧ (find_closing_parenthesis tokens (start + 1) end_ = some (start + 1) →
        parse_parentheses (fuel + 1) tokens start end_ =
          .error (.parse_error t.start_position "Empty parentheses"))
      ∧ (∀ c, find_closing_parenthesis tokens (start + 1) end_ = some c → c ≠ start + 1 →
        parse_parentheses (fuel + 1) tokens start end_ =
          match parse_range fuel tokens (start + 1) (c - 1) priority.lowest with
          | .error e => .error e
          | .ok content => .ok (expression.parentheses content)))
    ∧ (∀ e : expression, (expression.parentheses e).calcE = e.calcE)
    ∧ calculate "(5" = .error (.parse_error 0 "Unclosed parenthesis")
    ∧ calculate "()" = .error (.parse_error 0 "Empty parentheses")
    ∧ calculate "2 * (3 + 2)" = .ok (Val.fin ⟨10, 1⟩) := by
  refine ⟨?_, fun e => rfl, by decide, by decide, by decide⟩
  intro fuel tokens start end_ t hsome _h
  refine ⟨?_, ?_, ?_⟩
  · intro hn
    simp only [parse_parentheses, runP]
    rw [hn, hsome]
  · intro hs
    simp only [parse_parentheses, runP]
    rw [hs]
    simp [hsome]
  · intro c hc hne
    simp only [parse_parentheses, parse_range, runP]
    rw [hc]
    simp [hne]

theorem claim_C6_witness :
    parse_parentheses 1 [⟨token_type.opening_parenthesis, 0, ⟨0, 1⟩⟩,
        ⟨token_type.number, 1, ⟨5, 1⟩⟩] 0 1 =
      .error (.parse_error 0 "Unclosed parenthesis")
    ∧ parse_parentheses 1 [⟨token_type.opening_parenthesis, 0, ⟨0, 1⟩⟩,
        ⟨token_type.closing_parenthesis, 1, ⟨0, 1⟩⟩] 0 1 =
      .error (.parse_error 0 "Empty parentheses")
    ∧ parse_parentheses 11 [⟨token_type.opening_parenthesis, 0, ⟨0, 1⟩⟩,
        ⟨token_type.number, 1, ⟨5, 1⟩⟩, ⟨token_type.closing_parenthesis, 2, ⟨0, 1⟩⟩] 0 2 =
      .ok (expression.parentheses (expression.number ⟨5, 1⟩)) := by
  refine ⟨?_, ?_, ?_⟩
  · exact (claim_C6.1 0 [⟨token_type.opening_parenthesis, 0, ⟨0, 1⟩⟩,
      ⟨token_type.number, 1, ⟨5, 1⟩⟩] 0 1
      ⟨token_type.opening_parenthesis, 0, ⟨0, 1⟩⟩ (by decide) (by decide)).1 (by decide)
  · exact (claim_C6.1 0 [⟨token_type.opening_parenthesis, 0, ⟨0, 1⟩⟩,
      ⟨token_type.closing_parenthesis, 1, ⟨0, 1⟩⟩] 0 1
      ⟨token_type.opening_parenthesis, 0, ⟨0, 1⟩⟩ (by decide) (by decide)).2.1 (by decide)
  · exact ((claim_C6.1 10 [⟨token_type.opening_parenthesis, 0, ⟨0, 1⟩⟩,
      ⟨token_type.number, 1, ⟨5, 1⟩⟩, ⟨token_type.closing_parenthesis, 2, ⟨0, 1⟩⟩] 0 2
      ⟨token_type.opening_parenthesis, 0, ⟨0, 1⟩⟩ (by decide) (by decide)).2.2 2
      (by decide) (by decide)).trans (by decide)

/-- Claim C8: evaluation of a parsed tree never raises an error (once
tokenizing and parsing succeed, calculate returns the evaluated value), the
evaluator is the total recursive fold given by the node classes, and a
divide node whose right operand evaluates to zero yields infinity or NaN
(never a finite value and never an error). -/
theorem claim_C8 :
    (∀ (formula : String) (tokens : List token) (e : expression),
      tokenize formula = .ok tokens → parse tokens = .ok e →
      calculate formula = .ok e.calcE)
    ∧ (∀ v, (expression.number v).calcE = Val.fin v)
    ∧ (∀ l r, (expression.add l r).calcE = Val.add l.calcE r.calcE)
    ∧ (∀ l r, (expression.subtract l r).calcE = Val.sub l.calcE r.calcE)
    ∧ (∀ l r, (expression.multiply l r).calcE = Val.mul l.calcE r.calcE)
    ∧ (∀ l r, (expression.divide l r).calcE = Val.div l.calcE r.calcE)
    ∧ (∀ e, (expression.negative e).calcE = Val.mul (Val.fin ⟨-1, 1⟩) e.calcE)
    ∧ (∀ l r q, r.calcE = Val.fin q → q.isZero = true →
        ∀ p, (expression.divide l r).calcE ≠ Val.fin p)
    ∧ calculate "1/(2-2)" = .ok (Val.inf false)
    ∧ calculate "(2-2)/(2-2)" = .ok Val.nan := by
  refine ⟨?_, fun v => rfl, fun l r => rfl, fun l r => rfl, fun l r => rfl,
    fun l r => rfl, fun e => rfl, ?_, by decide, by decide⟩
  · intro formula tokens e h1 h2
    simp [calculate, h1, h2]
  · intro l r q hr hz p
    simp only [expression.calcE, hr]
    cases hl : l.calcE with
    | fin a =>
        by_cases ha : a.isZero = true <;> simp [Val.div, hz, ha]
    | inf s => simp [Val.div]
    | nan => simp [Val.div]

theorem claim_C8_witness :
    calculate "5" = .ok (Val.fin ⟨5, 1⟩)
    ∧ (expression.divide (expression.number ⟨1, 1⟩)
        (expression.number ⟨0, 1⟩)).calcE ≠ Val.fin ⟨0, 1⟩ := by
  obtain ⟨h1, -, -, -, -, -, -, h8, -, -⟩ := claim_C8
  exact ⟨h1 "5" [⟨token_type.number, 0, ⟨5, 1⟩⟩] (expression.number ⟨5, 1⟩)
    (by decide) (by decide),
    h8 (expression.number ⟨1, 1⟩) (expression.number ⟨0, 1⟩) ⟨0, 1⟩ rfl rfl ⟨0, 1⟩⟩

/-- Claim C2: whenever the pending numeric buffer is closed during
tokenization (a non-numeric character arrives, or the numeric character is
the last of the input), the buffer must parse completely and the value must
be a normal finite double, else tokenization fails with a ParseError at the
buffer's start offset; in particular "0" is rejected, a subnormal-producing
literal is rejected, "3.3.3" is rejected, and 500 repeated digits fail at
offset 0. -/
theorem claim_C2 :
    (∀ (c : Char) (rest : List Char) (i : Nat) (acc : List token)
        (buf : List Char) (ns : Nat),
      isNumChar c = false → buf ≠ [] →
      (strtod_len buf = buf.length && isnormal_model (strtod_val buf)) = false →
      tokenize_go (c :: rest) i acc buf ns =
        .error (.parse_error ns "Number too long"))
    ∧ (∀ (c : Char) (i : Nat) (acc : List token) (buf : List Char) (ns : Nat),
      isNumChar c = true →
      (strtod_len (buf ++ [c]) = (buf ++ [c]).length
        && isnormal_model (strtod_val (buf ++ [c]))) = false →
      tokenize_go [c] i acc buf ns =
        .error (.parse_error (if buf.isEmpty then i else ns) "Number too long"))
    ∧ calculate "0" = .error (.parse_error 0 "Number too long")
    ∧ calculate "3.3.3" = .error (.parse_error 0 "Number too long")
    ∧ calculate (String.mk (List.replicate 500 '3')) =
        .error (.parse_error 0 "Number too long")
    ∧ calculate ("0." ++ String.mk (List.replicate 310 '0') ++ "1") =
        .error (.parse_error 0 "Number too long")
    ∧ calculate "1+0" = .error (.parse_error 2 "Number too long") := by
  refine ⟨?_, ?_, by decide, by decide, by decide, by decide, by decide⟩
  · intro c rest i acc buf ns hc hb hv
    have hbe : buf.isEmpty = false := by
      cases buf
      · exact absurd rfl hb
      · rfl
    simp only [tokenize_go, hc, hbe, Bool.false_eq_true, if_false, parse_number, hv]
    rfl
  · intro c i acc buf ns hc hv
    simp only [tokenize_go, hc, if_true, List.isEmpty_nil, parse_number, hv]
    simp

theorem claim_C2_witness :
    tokenize_go ['+'] 1 [] ['0'] 0 = .error (.parse_error 0 "Number too long")
    ∧ tokenize_go ['0'] 2 [] [] 2 = .error (.parse_error 2 "Number too long") := by
  constructor
  · exact claim_C2.1 '+' [] 1 [] ['0'] 0 (by decide) (by decide) (by decide)
  · exact (claim_C2.2.1 '0' 2 [] [] 2 (by decide) (by decide)).trans (by decide)

/-- Claim C10: every parse_number failure, whatever its cause (incomplete
strtod consumption, zero, subnormal, or overflow), carries exactly the
message "Number too long" at the supplied buffer-start offset; concrete
instances cover each cause. -/
theorem claim_C10 :
    (∀ (buf : List Char) (ns : Nat),
      (∃ err, parse_number buf ns = .error err) →
      parse_number buf ns = .error (.parse_error ns "Number too long"))
    ∧ calculate "4.4.4" = .error (.parse_error 0 "Number too long")
    ∧ calculate "0.0" = .error (.parse_error 0 "Number too long")
    ∧ calculate (String.mk (List.replicate 400 '9')) =
        .error (.parse_error 0 "Number too long")
    ∧ calculate ("0." ++ String.mk (List.replicate 320 '0') ++ "7") =
        .error (.parse_error 0 "Number too long") := by
  refine ⟨?_, by decide, by decide, by decide, by decide⟩
  intro buf ns h
  obtain ⟨err, herr⟩ := h
  by_cases hc : (strtod_len buf = buf.length && isnormal_model (strtod_val buf)) = true
  · rw [parse_number] at herr
    simp only [hc, if_true] at herr
    exact Except.noConfusion herr
  · rw [parse_number]
    simp only [hc]
    simp

theorem claim_C10_witness :
    parse_number ['0'] 0 = .error (.parse_error 0 "Number too long") :=
  claim_C10.1 ['0'] 0 ⟨.parse_error 0 "Number too long", by decide⟩

/-- Claim C3 fails as stated: for the failing input "*" (error offset 0) the
CLI caret line carries one space, not zero, and the input line is printed
wrapped in double quotes rather than verbatim. -/
theorem claim_C3_counterexample :
    calculate "*" = .error (.parse_error 0 "Unexpected token")
    ∧ cli_stderr "*" = some ["Invalid input:", "\"*\"", " ^", "Unexpected token"]
    ∧ (" ^" : String) ≠ String.mk (List.replicate 0 ' ') ++ "^"
    ∧ ("\"*\"" : String) ≠ "*" := by
  refine ⟨by decide, by decide, by decide, by decide⟩

/-- Claim C3 as amended: on failure the CLI prints "Invalid input:", the
original input wrapped in double quotes, a line of offset+1 spaces followed
by a caret — which aligns the caret with the offending character of the
quoted input line — and the error message, then exits with a failure
status. -/
theorem claim_C3_amended (input : String) (p : Nat) (m : String)
    (h : calculate input = .error (.parse_error p m)) :
    cli_stderr input = some ["Invalid input:", "\"" ++ input ++ "\"",
      String.mk (List.replicate (p + 1) ' ') ++ "^", m]
    ∧ cli_exit_status input = some 1
    ∧ (p < input.length →
        ("\"" ++ input ++ "\"").data.getD (p + 1) ' ' = input.data.getD p ' ') := by
  refine ⟨by simp [cli_stderr, h, cli_catch_lines], by simp [cli_exit_status, h], ?_⟩
  intro hp
  have hdata : ("\"" ++ input ++ "\"").data = '"' :: (input.data ++ ['"']) := by
    simp [String.data_append]
  rw [hdata]
  have hlt : p < input.data.length := hp
  simp [List.getD, List.getElem?_append, hlt, hp]

theorem claim_C3_witness :
    cli_stderr "*" = some ["Invalid input:", "\"*\"", " ^", "Unexpected token"]
    ∧ cli_exit_status "*" = some 1
    ∧ ("\"*\"" : String).data.getD 1 ' ' = ("*" : String).data.getD 0 ' ' := by
  obtain ⟨h1, h2, h3⟩ := claim_C3_amended "*" 0 "Unexpected token" (by decide)
  exact ⟨h1, h2, h3 (by decide)⟩

theorem fcp_go_bound (tokens : List token) :
    ∀ steps i depth c, fcp_go tokens i steps depth = some c →
      i ≤ c ∧ c < i + steps := by
  intro steps
  induction steps with
  | zero => intro i depth c h; simp [fcp_go] at h
  | succ n ih =>
      intro i depth c h
      simp only [fcp_go] at h
      by_cases h1 : (tokens.getD i default_token).type = token_type.closing_parenthesis
      · rw [if_pos h1] at h
        by_cases h2 : depth = 0
        · rw [if_pos h2] at h; cases h; omega
        · rw [if_neg h2] at h; have := ih (i + 1) (depth - 1) c h; omega
      · rw [if_neg h1] at h
        by_cases h3 : (tokens.getD i default_token).type = token_type.opening_parenthesis
        · rw [if_pos h3] at h; have := ih (i + 1) (depth + 1) c h; omega
        · rw [if_neg h3] at h; have := ih (i + 1) depth c h; omega

theorem fcp_go_closing (tokens : List token) :
    ∀ steps i depth c, fcp_go tokens i steps depth = some c →
      (tokens.getD c default_token).type = token_type.closing_parenthesis := by
  intro steps
  induction steps with
  | zero => intro i depth c h; simp [fcp_go] at h
  | succ n ih =>
      intro i depth c h
      simp only [fcp_go] at h
      by_cases h1 : (tokens.getD i default_token).type = token_type.closing_parenthesis
      · rw [if_pos h1] at h
        by_cases h2 : depth = 0
        · rw [if_pos h2] at h; cases h; exact h1
        · rw [if_neg h2] at h; exact ih (i + 1) (depth - 1) c h
      · rw [if_neg h1] at h
        by_cases h3 : (tokens.getD i default_token).type = token_type.opening_parenthesis
        · rw [if_pos h3] at h; exact ih (i + 1) (depth + 1) c h
        · rw [if_neg h3] at h; exact ih (i + 1) depth c h

theorem find_closing_bound (tokens : List token) (s e c : Nat)
    (h : find_closing_parenthesis tokens s e = some c) : s ≤ c ∧ c ≤ e := by
  have hb := fcp_go_bound tokens (e + 1 - s) s 0 c h
  omega

theorem find_closing_closing (tokens : List token) (s e c : Nat)
    (h : find_closing_parenthesis tokens s e = some c) :
    ∀ t, tokens[c]? = some t → t.type = token_type.closing_parenthesis := by
  intro t ht
  have hc := fcp_go_closing tokens (e + 1 - s) s 0 c h
  have hg : tokens.get? c = some t := by rw [List.get?_eq_getElem?]; exact ht
  rw [List.getD, hg] at hc
  exact hc

theorem create_consumed (l : expression) (o : _operator) (r : expression) :
    (create_two_operand_expression l o r).consumed_tokens =
      l.consumed_tokens + r.consumed_tokens + 1 := by
  cases o <;> rfl

theorem runP_bounds (fuel : Nat) :
    ∀ (tokens : List token) (s e : Nat) (p : priority) (r : expression),
    (s ≤ e + 1 → range_closed tokens e →
      parse_operand fuel tokens s e = .ok r →
      1 ≤ r.consumed_tokens ∧ s + r.consumed_tokens ≤ e + 1)
    ∧ (range_closed tokens e →
      parse_parentheses fuel tokens s e = .ok r →
      1 ≤ r.consumed_tokens ∧ s + r.consumed_tokens ≤ e + 1)
    ∧ (s ≤ e + 1 → range_closed tokens e →
      parse_range fuel tokens s e p = .ok r →
      1 ≤ r.consumed_tokens ∧ s + r.consumed_tokens ≤ e + 1)
    ∧ (∀ acc, range_closed tokens e → 1 ≤ acc.consumed_tokens →
      s + acc.consumed_tokens ≤ e + 1 →
      parse_range_loop fuel tokens s e p acc = .ok r →
      1 ≤ r.consumed_tokens ∧ s + r.consumed_tokens ≤ e + 1) := by
  induction fuel with
  | zero =>
      intro tokens s e p r
      refine ⟨?_, ?_, ?_, ?_⟩
      · intro _ _ h; simp [parse_operand, runP] at h
      · intro _ h; simp [parse_parentheses, runP] at h
      · intro _ _ h; simp [parse_range, runP] at h
      · intro acc _ _ _ h; simp [parse_range_loop, runP] at h
  | succ f ih =>
      intro tokens s e p r
      refine ⟨?_, ?_, ?_, ?_⟩
      · -- parse_operand
        intro hse hcl h
        simp only [parse_operand, runP] at h
        split at h
        · exact Except.noConfusion h
        · rename_i t hts
          have hsle : t.type ≠ token_type.closing_parenthesis → s ≤ e := by
            intro hty
            by_cases hs : s = e + 1
            · exact absurd (hcl t (hs ▸ hts)) hty
            · omega
          split at h
          · -- opening parenthesis
            exact (ih tokens s e p r).2.1 hcl h
          · -- minus
            rename_i hty
            split at h
            · exact Except.noConfusion h
            · rename_i hne
              split at h
              · exact Except.noConfusion h
              · rename_i content heqc
                cases h
                have hs_le : s ≤ e := hsle (by rw [hty]; decide)
                obtain ⟨h1, h2⟩ := (ih tokens (s + 1) e p content).1 (by omega) hcl heqc
                simp only [expression.consumed_tokens]
                omega
          · -- number
            rename_i hty
            cases h
            have hs_le : s ≤ e := hsle (by rw [hty]; decide)
            simp only [expression.consumed_tokens]
            omega
          · -- other token kinds
            exact Except.noConfusion h
      · -- parse_parentheses
        intro hcl h
        simp only [parse_parentheses, runP] at h
        split at h
        · split at h
          · exact Except.noConfusion h
          · exact Except.noConfusion h
        · rename_i c heqf
          split at h
          · split at h
            · exact Except.noConfusion h
            · exact Except.noConfusion h
          · rename_i hne
            split at h
            · exact Except.noConfusion h
            · rename_i content heqr
              cases h
              obtain ⟨hb1, hb2⟩ := find_closing_bound tokens (s + 1) e c heqf
              have hcl2 : range_closed tokens (c - 1) := by
                intro t' ht'
                have hcc : c - 1 + 1 = c := by omega
                rw [hcc] at ht'
                exact find_closing_closing tokens (s + 1) e c heqf t' ht'
              obtain ⟨h1, h2⟩ :=
                (ih tokens (s + 1) (c - 1) priority.lowest content).2.2.1
                  (by omega) hcl2 heqr
              simp only [expression.consumed_tokens]
              omega
      · -- parse_range
        intro hse hcl h
        simp only [parse_range, runP] at h
        split at h
        · exact Except.noConfusion h
        · rename_i result heqo
          obtain ⟨h1, h2⟩ := (ih tokens s e p result).1 hse hcl heqo
          exact (ih tokens s e p r).2.2.2 result hcl h1 h2 h
      · -- parse_range_loop
        intro acc hcl h1 h2 h
        simp only [parse_range_loop, runP] at h
        split at h
        · rename_i hgt
          split at h
          · exact Except.noConfusion h
          · rename_i nt heqt
            split at h
            · exact Except.noConfusion h
            · rename_i op heqop
              split at h
              · cases h; exact ⟨h1, h2⟩
              · split at h
                · exact Except.noConfusion h
                · rename_i next heqn
                  obtain ⟨h1', h2'⟩ :=
                    (ih tokens (s + acc.consumed_tokens + 1) e
                      (get_priority op) next).2.2.1 (by omega) hcl heqn
                  have hct := create_consumed acc op next
                  refine (ih tokens s e p r).2.2.2
                    (create_two_operand_expression acc op next) hcl ?_ ?_ h
                  · omega
                  · omega
        · rename_i hng
          cases h
          exact ⟨h1, h2⟩

theorem runP_lowest_exact (fuel : Nat) :
    ∀ (tokens : List token) (s e : Nat) (r : expression),
    (parse_range fuel tokens s e priority.lowest = .ok r →
      e + 1 - s ≤ r.consumed_tokens)
    ∧ (∀ acc, parse_range_loop fuel tokens s e priority.lowest acc = .ok r →
      e + 1 - s ≤ r.consumed_tokens) := by
  induction fuel with
  | zero =>
      intro tokens s e r
      constructor
      · intro h; simp [parse_range, runP] at h
      · intro acc h; simp [parse_range_loop, runP] at h
  | succ f ih =>
      intro tokens s e r
      constructor
      · intro h
        simp only [parse_range, runP] at h
        split at h
        · exact Except.noConfusion h
        · exact (ih tokens s e r).2 _ h
      · intro acc h
        simp only [parse_range_loop, runP] at h
        split at h
        · split at h
          · exact Except.noConfusion h
          · split at h
            · exact Except.noConfusion h
            · rename_i op heqop
              split at h
              · rename_i hle
                exfalso
                cases op <;> simp [get_priority, priority.toNat] at hle
              · split at h
                · exact Except.noConfusion h
                · exact (ih tokens s e r).2 _ h
        · rename_i hng
          cases h
          omega

/-- Claim C5: consumed_tokens reports exactly the tokens a node's parse
consumed: the structural accounting (Number = 1, Negate = inner+1, binary =
left+right+1, Parenthesized = inner+2), in-range consumption bounds for
every successful sub-parse over a properly delimited range, and exactness
at the whole-input level: a successful parse consumes precisely all
tokens. -/
theorem claim_C5 :
    (∀ v, (expression.number v).consumed_tokens = 1)
    ∧ (∀ e, (expression.negative e).consumed_tokens = e.consumed_tokens + 1)
    ∧ (∀ l r, (expression.add l r).consumed_tokens =
        l.consumed_tokens + r.consumed_tokens + 1)
    ∧ (∀ l r, (expression.subtract l r).consumed_tokens =
        l.consumed_tokens + r.consumed_tokens + 1)
    ∧ (∀ l r, (expression.multiply l r).consumed_tokens =
        l.consumed_tokens + r.consumed_tokens + 1)
    ∧ (∀ l r, (expression.divide l r).consumed_tokens =
        l.consumed_tokens + r.consumed_tokens + 1)
    ∧ (∀ e, (expression.parentheses e).consumed_tokens = e.consumed_tokens + 2)
    ∧ (∀ (fuel : Nat) (tokens : List token) (s e : Nat) (r : expression),
        s ≤ e + 1 → range_closed tokens e →
        parse_operand fuel tokens s e = .ok r →
        1 ≤ r.consumed_tokens ∧ s + r.consumed_tokens ≤ e + 1)
    ∧ (∀ (tokens : List token) (r : expression),
        parse tokens = .ok r → r.consumed_tokens = tokens.length) := by
  refine ⟨fun v => rfl, fun e => rfl, fun l r => rfl, fun l r => rfl, fun l r => rfl,
    fun l r => rfl, fun e => rfl, ?_, ?_⟩
  · intro fuel tokens s e r hse hcl h
    exact (runP_bounds fuel tokens s e priority.lowest r).1 hse hcl h
  · intro tokens r h
    cases tokens with
    | nil => simp [parse] at h
    | cons t ts =>
      have hne : (t :: ts : List token).isEmpty = false := rfl
      rw [parse, hne] at h
      simp only [Bool.false_eq_true, if_false] at h
      have hcl : range_closed (t :: ts) ((t :: ts).length - 1) := by
        intro t' ht'
        have hlen : (t :: ts).length - 1 + 1 = (t :: ts).length := by simp
        rw [hlen] at ht'
        rw [List.getElem?_eq_none (Nat.le_refl _)] at ht'
        exact Option.noConfusion ht'
      obtain ⟨hb1, hb2⟩ :=
        (runP_bounds (parser_fuel (t :: ts)) (t :: ts) 0 ((t :: ts).length - 1)
          priority.lowest r).2.2.1 (by omega) hcl h
      have hex :=
        (runP_lowest_exact (parser_fuel (t :: ts)) (t :: ts) 0
          ((t :: ts).length - 1) r).1 h
      have hlen : 1 ≤ (t :: ts).length := by simp
      omega

theorem claim_C5_witness :
    (expression.add (expression.number ⟨2, 1⟩)
      (expression.number ⟨3, 1⟩)).consumed_tokens = 3
    ∧ (1 ≤ (expression.number ⟨7, 1⟩).consumed_tokens
        ∧ 0 + (expression.number ⟨7, 1⟩).consumed_tokens ≤ 0 + 1) := by
  constructor
  · exact claim_C5.2.2.2.2.2.2.2.2 [⟨token_type.number, 0, ⟨2, 1⟩⟩,
      ⟨token_type.plus, 1, ⟨0, 1⟩⟩, ⟨token_type.number, 2, ⟨3, 1⟩⟩]
      (expression.add (expression.number ⟨2, 1⟩) (expression.number ⟨3, 1⟩))
      (by decide)
  · exact claim_C5.2.2.2.2.2.2.2.1 5 [⟨token_type.number, 0, ⟨7, 1⟩⟩] 0 0
      (expression.number ⟨7, 1⟩) (by omega)
      (by intro t ht; simp at ht) (by decide)

theorem parse_range_unfold (f : Nat) (tokens : List token) (s e : Nat) (p : priority) :
    parse_range (f + 1) tokens s e p =
      match parse_operand f tokens s e with
      | .error err => .error err
      | .ok result => parse_range_loop f tokens s e p result := rfl

theorem parse_range_loop_unfold (f : Nat) (tokens : List token) (s e : Nat)
    (p : priority) (acc : expression) :
    parse_range_loop (f + 1) tokens s e p acc =
      (if e + 1 - s > acc.consumed_tokens then
        match tokens[s + acc.consumed_tokens]? with
        | none => .error (.broken "token index out of range")
        | some nt =>
          match parse_operator nt with
          | .error err => .error err
          | .ok op =>
            if (get_priority op).toNat ≤ p.toNat then .ok acc
            else
              match parse_range f tokens (s + acc.consumed_tokens + 1) e
                  (get_priority op) with
              | .error err => .error err
              | .ok next =>
                  parse_range_loop f tokens s e p
                    (create_two_operand_expression acc op next)
      else .ok acc) := rfl

theorem operand_number (tokens : List token) (f s e : Nat) (w : dbl) (t : token)
    (ht : tokens[s]? = some t) (hty : t.type = token_type.number)
    (hv : t.value = w) :
    parse_operand (f + 1) tokens s e = .ok (.number w) := by
  simp only [parse_operand, runP, ht, hty, hv]

theorem tail_at_le (tokens : List token) :
    ∀ (l : List (_operator × dbl)) (pos e : Nat),
      tail_at tokens pos l e → pos ≤ e + 1 := by
  intro l
  induction l with
  | nil => intro pos e h; simp only [tail_at] at h; omega
  | cons ow rest ih =>
      intro pos e h
      obtain ⟨-, -, htail⟩ := h
      have := ih (pos + 2) e htail
      omega

theorem mulFold_consumed :
    ∀ (l : List (_operator × dbl)) (acc : expression),
      (mulFold acc l).consumed_tokens = acc.consumed_tokens + 2 * mulTaken l := by
  intro l
  induction l with
  | nil => intro acc; simp [mulFold, mulTaken]
  | cons ow rest ih =>
      obtain ⟨o, w⟩ := ow
      intro acc
      by_cases hp : get_priority o = priority.second
      · rw [mulFold, if_pos hp, mulTaken, if_pos hp, ih, create_consumed]
        simp only [expression.consumed_tokens]
        omega
      · rw [mulFold, if_neg hp, mulTaken, if_neg hp]
        omega

theorem mulRest_length (l : List (_operator × dbl)) :
    (mulRest l).length ≤ l.length := by
  induction l with
  | nil => simp [mulRest]
  | cons ow rest ih =>
      obtain ⟨o, w⟩ := ow
      by_cases hp : get_priority o = priority.second
      · rw [mulRest, if_pos hp]; simp; omega
      · rw [mulRest, if_neg hp]

theorem tail_at_mulRest (tokens : List token) :
    ∀ (rest : List (_operator × dbl)) (pos e : Nat),
      tail_at tokens pos rest e →
      tail_at tokens (pos + 2 * mulTaken rest) (mulRest rest) e := by
  intro rest
  induction rest with
  | nil => intro pos e h; simpa [mulTaken, mulRest] using h
  | cons ow r2 ih =>
      obtain ⟨o, w⟩ := ow
      intro pos e h
      by_cases hp : get_priority o = priority.second
      · obtain ⟨-, -, htail⟩ := h
        have hi := ih (pos + 2) e htail
        rw [mulRest, if_pos hp, mulTaken, if_pos hp]
        have harith : pos + 2 * (mulTaken r2 + 1) = pos + 2 + 2 * mulTaken r2 := by omega
        rw [harith]
        exact hi
      · rw [mulRest, if_neg hp, mulTaken, if_neg hp]
        simpa using h

theorem parse_second (tokens : List token) (rest : List (_operator × dbl))
    (fuel s e : Nat) (w : dbl)
    (hnum : num_at tokens s w) (htail : tail_at tokens (s + 1) rest e)
    (hfuel : 2 ≤ fuel) :
    parse_range fuel tokens s e priority.second = .ok (.number w) := by
  obtain ⟨f, rfl⟩ : ∃ f, fuel = f + 2 := ⟨fuel - 2, by omega⟩
  obtain ⟨t, ht, hty, hv⟩ := hnum
  rw [parse_range_unfold, operand_number tokens f s e w t ht hty hv]
  show parse_range_loop (f + 1) tokens s e priority.second (expression.number w) =
    Except.ok (expression.number w)
  rw [parse_range_loop_unfold]
  cases rest with
  | nil =>
      simp only [tail_at] at htail
      rw [if_neg (by simp only [expression.consumed_tokens]; omega)]
  | cons ow r2 =>
      obtain ⟨o, w2⟩ := ow
      obtain ⟨⟨t2, ht2, hpo⟩, hnum2, htail2⟩ := htail
      have hle := tail_at_le tokens r2 _ _ htail2
      rw [if_pos (by simp only [expression.consumed_tokens]; omega)]
      simp only [expression.consumed_tokens]
      rw [ht2]
      simp only [hpo]
      rw [if_pos (by cases o <;> decide)]

theorem loop_first (tokens : List token) :
    ∀ (rem : List (_operator × dbl)) (fuel : Nat) (acc : expression) (s e : Nat),
      tail_at tokens (s + acc.consumed_tokens) rem e →
      2 * rem.length + 3 ≤ fuel →
      parse_range_loop fuel tokens s e priority.first acc = .ok (mulFold acc rem) := by
  intro rem
  induction rem with
  | nil =>
      intro fuel acc s e htail hfuel
      obtain ⟨f, rfl⟩ : ∃ f, fuel = f + 1 := ⟨fuel - 1, by omega⟩
      simp only [tail_at] at htail
      rw [parse_range_loop_unfold, if_neg (by omega), mulFold]
  | cons ow rest ih =>
      obtain ⟨o, w⟩ := ow
      intro fuel acc s e htail hfuel
      simp only [List.length_cons] at hfuel
      obtain ⟨f, rfl⟩ : ∃ f, fuel = f + 1 := ⟨fuel - 1, by omega⟩
      obtain ⟨⟨t2, ht2, hpo⟩, hnum2, htail2⟩ := htail
      have hle := tail_at_le tokens rest _ _ htail2
      rw [parse_range_loop_unfold, if_pos (by omega), ht2]
      simp only [hpo]
      by_cases hp : get_priority o = priority.second
      · rw [hp, if_neg (by decide)]
        rw [parse_second tokens rest f _ e w hnum2 htail2 (by omega)]
        have haf : mulFold acc ((o, w) :: rest) =
            mulFold (create_two_operand_expression acc o (.number w)) rest := by
          rw [mulFold, if_pos hp]
        rw [haf]
        refine ih f (create_two_operand_expression acc o (.number w)) s e ?_ (by omega)
        rw [create_consumed]
        simp only [expression.consumed_tokens]
        exact htail2
      · have hpf : get_priority o = priority.first := by
          cases o <;> first | rfl | exact absurd rfl hp
        rw [hpf, if_pos (by decide), mulFold, if_neg hp]

theorem loop_lowest (tokens : List token) :
    ∀ (n : Nat) (rem : List (_operator × dbl)), rem.length ≤ n →
    ∀ (fuel : Nat) (acc : expression) (s e : Nat),
      tail_at tokens (s + acc.consumed_tokens) rem e →
      4 * n + 8 ≤ fuel →
      parse_range_loop fuel tokens s e priority.lowest acc =
        .ok (addFoldF n acc rem) := by
  intro n
  induction n with
  | zero =>
      intro rem hlen fuel acc s e htail hfuel
      have hnil : rem = [] := List.length_eq_zero.mp (Nat.le_zero.mp hlen)
      subst hnil
      obtain ⟨f, rfl⟩ : ∃ f, fuel = f + 1 := ⟨fuel - 1, by omega⟩
      simp only [tail_at] at htail
      rw [parse_range_loop_unfold, if_neg (by omega)]
      rfl
  | succ n ih =>
      intro rem hlen fuel acc s e htail hfuel
      cases rem with
      | nil =>
          obtain ⟨f, rfl⟩ : ∃ f, fuel = f + 1 := ⟨fuel - 1, by omega⟩
          simp only [tail_at] at htail
          rw [parse_range_loop_unfold, if_neg (by omega)]
          rfl
      | cons ow rest =>
          obtain ⟨o, w⟩ := ow
          obtain ⟨f, rfl⟩ : ∃ f, fuel = f + 1 := ⟨fuel - 1, by omega⟩
          obtain ⟨⟨t2, ht2, hpo⟩, hnum2, htail2⟩ := htail
          have hle := tail_at_le tokens rest _ _ htail2
          have hlen2 : rest.length ≤ n := by
            simp only [List.length_cons] at hlen; omega
          rw [parse_range_loop_unfold, if_pos (by omega), ht2]
          simp only [hpo]
          rw [if_neg (by cases o <;> decide)]
          by_cases hp : get_priority o = priority.second
          · rw [hp]
            rw [parse_second tokens rest f _ e w hnum2 htail2 (by omega)]
            have haf : addFoldF (n + 1) acc ((o, w) :: rest) =
                addFoldF n (create_two_operand_expression acc o (.number w)) rest := by
              rw [addFoldF, if_pos hp]
            rw [haf]
            refine ih rest hlen2 f (create_two_operand_expression acc o (.number w))
              s e ?_ (by omega)
            rw [create_consumed]
            simp only [expression.consumed_tokens]
            exact htail2
          · have hpf : get_priority o = priority.first := by
              cases o <;> first | rfl | exact absurd rfl hp
            rw [hpf]
            obtain ⟨f2, rfl⟩ : ∃ f2, f = f2 + 1 := ⟨f - 1, by omega⟩
            obtain ⟨f3, rfl⟩ : ∃ f3, f2 = f3 + 1 := ⟨f2 - 1, by omega⟩
            obtain ⟨tn, htn, htyn, hvn⟩ := hnum2
            rw [parse_range_unfold,
              operand_number tokens f3 _ e w tn htn htyn hvn]
            show (match parse_range_loop (f3 + 1) tokens
                (s + acc.consumed_tokens + 1) e priority.first
                (expression.number w) with
              | Except.error err => Except.error err
              | Except.ok next =>
                  parse_range_loop (f3 + 1 + 1) tokens s e priority.lowest
                    (create_two_operand_expression acc o next)) =
              Except.ok (addFoldF (n + 1) acc ((o, w) :: rest))
            rw [loop_first tokens rest (f3 + 1) (.number w)
              (s + acc.consumed_tokens + 1) e
              (by simp only [expression.consumed_tokens]; exact htail2) (by omega)]
            have haf : addFoldF (n + 1) acc ((o, w) :: rest) =
                addFoldF n
                  (create_two_operand_expression acc o (mulFold (.number w) rest))
                  (mulRest rest) := by
              rw [addFoldF, if_neg hp]
            rw [haf]
            refine ih (mulRest rest) (le_trans (mulRest_length rest) hlen2)
              (f3 + 2) _ s e ?_ (by omega)
            have hmr := tail_at_mulRest tokens rest _ e htail2
            rw [create_consumed, mulFold_consumed]
            simp only [expression.consumed_tokens]
            have harith : s + (acc.consumed_tokens + (1 + 2 * mulTaken rest) + 1) =
                s + acc.consumed_tokens + 2 + 2 * mulTaken rest := by omega
            rw [harith]
            exact hmr

theorem opsTokens_length (ops : List (_operator × dbl)) :
    (opsTokens ops).length = 2 * ops.length := by
  induction ops with
  | nil => rfl
  | cons ow rest ih =>
      obtain ⟨o, w⟩ := ow
      simp [opsTokens, ih]
      omega

theorem parse_operator_opTok (o : _operator) :
    parse_operator ⟨opTokenType o, 0, ⟨0, 1⟩⟩ = .ok o := by
  cases o <;> rfl

theorem flat_tail (ops : List (_operator × dbl)) :
    ∀ (base : List token), 1 ≤ base.length →
      tail_at (base ++ opsTokens ops) base.length ops
        (base.length + 2 * ops.length - 1) := by
  induction ops with
  | nil =>
      intro base hb
      simp only [opsTokens, List.append_nil, tail_at, List.length_nil]
      omega
  | cons ow rest ih =>
      obtain ⟨o, w⟩ := ow
      intro base hb
      refine ⟨⟨⟨opTokenType o, 0, ⟨0, 1⟩⟩, ?_, parse_operator_opTok o⟩,
        ⟨⟨token_type.number, 0, w⟩, ?_, rfl, rfl⟩, ?_⟩
      · rw [List.getElem?_append_right (Nat.le_refl _)]
        simp [opsTokens]
      · rw [List.getElem?_append_right (Nat.le_succ_of_le (Nat.le_refl _))]
        simp [opsTokens]
      · have hi := ih (base ++ [⟨opTokenType o, 0, ⟨0, 1⟩⟩,
          ⟨token_type.number, 0, w⟩]) (by simp)
        have heq : (base ++ [⟨opTokenType o, 0, ⟨0, 1⟩⟩,
            ⟨token_type.number, 0, w⟩]) ++ opsTokens rest =
            base ++ opsTokens ((o, w) :: rest) := by
          simp [opsTokens]
        have hlen : (base ++ [(⟨opTokenType o, 0, ⟨0, 1⟩⟩ : token),
            ⟨token_type.number, 0, w⟩]).length = base.length + 2 := by
          simp
        rw [heq, hlen] at hi
        have harith : base.length + 2 + 2 * rest.length - 1 =
            base.length + 2 * ((o, w) :: rest).length - 1 := by
          simp [List.length_cons]
          omega
        rw [harith] at hi
        exact hi

theorem flat_tokens_length (v : dbl) (ops : List (_operator × dbl)) :
    (flat_tokens v ops).length = 1 + 2 * ops.length := by
  simp [flat_tokens, opsTokens_length]
  omega

/-- The parser run on any flat chain of numeric literals joined by binary
operators yields exactly the specification's standard-precedence,
left-associative tree. -/
theorem parse_flat (v : dbl) (ops : List (_operator × dbl)) :
    parse (flat_tokens v ops) = .ok (spec_flat_tree v ops) := by
  have hne : (flat_tokens v ops).isEmpty = false := rfl
  rw [parse, hne]
  simp only [Bool.false_eq_true, if_false]
  have hfuel : parser_fuel (flat_tokens v ops) =
      (12 * ops.length + 16) + 2 := by
    simp [parser_fuel, flat_tokens_length]
    omega
  rw [hfuel, parse_range_unfold,
    operand_number (flat_tokens v ops) (12 * ops.length + 16) 0
      ((flat_tokens v ops).length - 1) v ⟨token_type.number, 0, v⟩
      (by simp [flat_tokens]) rfl rfl]
  show parse_range_loop (12 * ops.length + 16 + 1) (flat_tokens v ops) 0
      ((flat_tokens v ops).length - 1) priority.lowest (expression.number v) =
    Except.ok (spec_flat_tree v ops)
  have htail : tail_at (flat_tokens v ops)
      (0 + (expression.number v).consumed_tokens) ops
      ((flat_tokens v ops).length - 1) := by
    have := flat_tail ops [⟨token_type.number, 0, v⟩] (by simp)
    simp only [List.length_singleton] at this
    have harith : 1 + 2 * ops.length - 1 = (flat_tokens v ops).length - 1 := by
      rw [flat_tokens_length]
    rw [harith] at this
    simpa [flat_tokens, expression.consumed_tokens] using this
  exact loop_lowest (flat_tokens v ops) ops.length ops (Nat.le_refl _)
    (12 * ops.length + 16 + 1) (expression.number v) 0
    ((flat_tokens v ops).length - 1) htail (by omega)

/-- Claim C1: for every flat input of numeric literals joined by the binary
operators + - * /, the parser applies * and / before + and - and folds
same-precedence operators left-associatively: the tree built is exactly the
specification's standard-precedence reference tree; at the three-operand
level the next operator is consumed into the right subtree exactly when its
priority strictly exceeds the pending one; and in particular
calculate("2 + 3 * 4") = 14, calculate("2 * 3 + 4") = 10 and
calculate("7 + (((5*2)+5)/(2+3)+1)/2 - 1") = 8. -/
theorem claim_C1 :
    (∀ (v : dbl) (ops : List (_operator × dbl)),
      parse (flat_tokens v ops) = .ok (spec_flat_tree v ops))
    ∧ (∀ (a b c : dbl) (o1 o2 : _operator),
      parse [⟨token_type.number, 0, a⟩, ⟨opTokenType o1, 1, ⟨0, 1⟩⟩,
             ⟨token_type.number, 2, b⟩, ⟨opTokenType o2, 3, ⟨0, 1⟩⟩,
             ⟨token_type.number, 4, c⟩] =
        .ok (if (get_priority o2).toNat ≤ (get_priority o1).toNat
             then create_two_operand_expression
                    (create_two_operand_expression (.number a) o1 (.number b)) o2 (.number c)
             else create_two_operand_expression (.number a) o1
                    (create_two_operand_expression (.number b) o2 (.number c))))
    ∧ calculate "2 + 3 * 4" = .ok (Val.fin ⟨14, 1⟩)
    ∧ calculate "2 * 3 + 4" = .ok (Val.fin ⟨10, 1⟩)
    ∧ calculate "7 + (((5*2)+5)/(2+3)+1)/2 - 1" = .ok (Val.fin ⟨8, 1⟩) := by
  refine ⟨parse_flat, ?_, by decide, by decide, by decide⟩
  intro a b c o1 o2
  cases o1 <;> cases o2 <;> rfl
